import Mathlib

/-!
Verification of the Govly backend core against its specification.

The Python sources embedded here (shallowly) are:
  * backend/main.py      : should_trigger_rag, normalize_field_name,
                           the field-deduplication section of extract_form
  * backend/simple_llm.py: SimpleSeaLionLLM._call retry/fallback ladder
  * backend/chains/form_chain.py : try_parse_json, fill_form,
                           extract_form_fields

External effects (HTTP transport, LLM replies) are modelled as explicit
oracle parameters: an LLM/transport outcome is an Option String where
none models a raised exception / failed request.
-/

namespace Govly

/-! ### Python string primitives -/

/-- Whitespace as recognised by Python str.strip and str.split
(the ASCII and Unicode codepoints for which str.isspace is True). -/
def pyIsSpace (c : Char) : Bool :=
  let n := c.toNat
  (9 ≤ n && n ≤ 13) || (28 ≤ n && n ≤ 31) || n == 32 || n == 0x85 || n == 0xA0 ||
  n == 0x1680 || (0x2000 ≤ n && n ≤ 0x200A) || n == 0x2028 || n == 0x2029 ||
  n == 0x202F || n == 0x205F || n == 0x3000

/-- Remove trailing characters satisfying p (helper for Python str.strip). -/
def dropTrailing (p : Char → Bool) (l : List Char) : List Char :=
  (l.reverse.dropWhile p).reverse

/-- Python str.strip(chars): remove leading and trailing characters
satisfying p. -/
def stripBoth (p : Char → Bool) (l : List Char) : List Char :=
  dropTrailing p (l.dropWhile p)

/-- Python str.strip() with no arguments (strip whitespace). -/
def pyStrip (l : List Char) : List Char :=
  stripBoth pyIsSpace l

/-- Python substring containment (the needle in hay operator). -/
def containsSub (needle hay : List Char) : Bool :=
  (List.range (hay.length + 1)).any (fun i => needle.isPrefixOf (hay.drop i))

/-- Python str.split() with no arguments: split on whitespace runs,
discarding empty tokens.  Accumulator holds the current word reversed. -/
def pyWordsAux : List Char → List Char → List (List Char)
  | [], acc => if acc = [] then [] else [acc.reverse]
  | c :: rest, acc =>
    if pyIsSpace c then
      if acc = [] then pyWordsAux rest [] else acc.reverse :: pyWordsAux rest []
    else pyWordsAux rest (c :: acc)

/-- Python str.split() on a String. -/
def pySplitWs (s : String) : List String :=
  (pyWordsAux s.data []).map String.mk

/-- The uppercase codepoints of the Latin Extended-A block U+0100 - U+017F
(their Python lowercase is the codepoint plus one). -/
def upperLatinA (n : Nat) : Bool :=
  (0x100 ≤ n && n ≤ 0x136 && n % 2 == 0) || (0x139 ≤ n && n ≤ 0x147 && n % 2 == 1) ||
  (0x14A ≤ n && n ≤ 0x176 && n % 2 == 0) || n == 0x179 || n == 0x17B || n == 0x17D

/-- Model of Python str.lower on a single character, exact on the ranges
relevant to the backend (ASCII, Latin-1 Supplement, Latin Extended-A,
i.e. everything the normalization regex class a-z0-9_ and U+00C0-U+017F
can keep) and the identity elsewhere.  U+0130 is handled at string level
by pyLower since Python lowercases it to two characters. -/
def pyLowerChar (c : Char) : Char :=
  let n := c.toNat
  if (65 ≤ n && n ≤ 90) || (0xC0 ≤ n && n ≤ 0xDE && n != 0xD7) then Char.ofNat (n + 32)
  else if n == 0x178 then Char.ofNat 0xFF
  else if upperLatinA n then Char.ofNat (n + 1)
  else c

/-- Model of Python str.lower on a character list.  U+0130 (LATIN CAPITAL
LETTER I WITH DOT ABOVE) lowercases to U+0069 followed by U+0307. -/
def pyLower (l : List Char) : List Char :=
  l.flatMap (fun c =>
    if c.toNat == 0x130 then [Char.ofNat 0x69, Char.ofNat 0x307] else [pyLowerChar c])

/-! ### normalize_field_name (backend/main.py) -/

/-- The character class kept by the regex in normalize_field_name:
lowercase ASCII letters, digits, underscore, and U+00C0 - U+017F. -/
def keptChar (c : Char) : Bool :=
  let n := c.toNat
  (0x61 ≤ n && n ≤ 0x7A) || (0x30 ≤ n && n ≤ 0x39) || n == 0x5F || (0xC0 ≤ n && n ≤ 0x17F)

/-- Model of re.sub applied with pattern underscore-plus replaced by a
single underscore: every maximal run of underscores collapses to one. -/
def collapseUnders : List Char → List Char
  | [] => []
  | c :: rest =>
    if c == '_' && (collapseUnders rest).head? == some '_' then collapseUnders rest
    else c :: collapseUnders rest

/-- The pipeline of normalize_field_name after the emptiness guard:
lowercase and trim, replace characters outside the kept class by
underscore, collapse repeated underscores, strip leading and trailing
underscores. -/
def normCore (x : String) : List Char :=
  stripBoth (fun c => c == '_')
    (collapseUnders
      ((pyStrip (pyLower x.data)).map (fun c => if keptChar c then c else '_')))

/-- backend/main.py normalize_field_name: the pipeline above, defaulting
to the sentinel unnamed_field for empty input or an empty result. -/
def normalize_field_name (field_name : String) : String :=
  if field_name = "" then "unnamed_field"
  else if normCore field_name = [] then "unnamed_field"
  else String.mk (normCore field_name)

example : normalize_field_name "Full Name" = "full_name" := by decide
example : normalize_field_name "" = "unnamed_field" := by decide
example : normalize_field_name "!!!" = "unnamed_field" := by decide
example : normalize_field_name "  Họ và tên  " = normalize_field_name (normalize_field_name "  Họ và tên  ") := by decide

/-! ### Field deduplication (backend/main.py, extract_form) -/

/-- A candidate form field as held by extract_form after the normalization
comprehension (name already passed through normalize_field_name). -/
structure CandField where
  name : String
  ftype : String
  label : String
  required : Bool
  description : String
deriving DecidableEq, Repr

/-- Python field name dot split underscore index zero: the segment before
the first underscore (the whole string when there is none). -/
def firstSeg (n : String) : String :=
  String.mk (n.data.takeWhile (fun c => c ≠ '_'))

/-- The base name as computed in extract_form: split at underscore when
the name contains one, otherwise the name itself. -/
def baseName (n : String) : String :=
  if n.data.contains '_' then firstSeg n else n

/-- Replace the first element satisfying p by g of it (models the Python
in-place mutation of the found list element). -/
def updateFirst (p : CandField → Bool) (g : CandField → CandField) : List CandField → List CandField
  | [] => []
  | f :: rest => if p f then g f :: rest else f :: updateFirst p g rest

/-- The while loop choosing the smallest counter whose suffixed name and
type key is not yet seen.  Searching the first seen-length plus one
counters always suffices, so the fallback branch is unreachable. -/
def freshCounter (seen : List (String × String)) (nm ty : String) : Nat :=
  match (List.range (seen.length + 1)).find?
      (fun k => !(seen.contains (nm ++ "_" ++ toString (k + 1), ty))) with
  | some k => k + 1
  | none => seen.length + 2

/-- One iteration of the duplicate-removal loop in extract_form.  State:
the set of seen (name, type) keys and the accepted fields in order. -/
def dedupStep (acc : List (String × String) × List CandField) (field : CandField) :
    List (String × String) × List CandField :=
  let seen := acc.1
  let unique := acc.2
  let fieldKey := (field.name, field.ftype)
  let base := baseName field.name
  let baseKey := (base, field.ftype)
  if !(seen.contains fieldKey) && !(seen.contains baseKey) then
    (baseKey :: fieldKey :: seen, unique ++ [field])
  else
    match unique.find? (fun f => f.name == field.name || firstSeg f.name == base) with
    | some existing =>
      if field.description ≠ "" ∧ field.description ≠ existing.description then
        (seen,
         updateFirst (fun f => f.name == field.name || firstSeg f.name == base)
           (fun f => { f with description := f.description ++ " | " ++ field.description })
           unique)
      else
        let c := freshCounter seen field.name field.ftype
        let newName := field.name ++ "_" ++ toString c
        ((newName, field.ftype) :: seen,
         unique ++ [{ field with
                      name := newName,
                      label := field.label ++ " (" ++ toString c ++ ")" }])
    | none =>
      let c := freshCounter seen field.name field.ftype
      let newName := field.name ++ "_" ++ toString c
      ((newName, field.ftype) :: seen,
       unique ++ [{ field with
                    name := newName,
                    label := field.label ++ " (" ++ toString c ++ ")" }])

/-- First pass of the extract_form duplicate removal loop. -/
def dedupPass (fields : List CandField) : List CandField :=
  (fields.foldl dedupStep ([], [])).2

/-- One iteration of the final uniqueness-validation pass: drop any field
whose name was already emitted. -/
def finalStep (acc : List String × List CandField) (field : CandField) :
    List String × List CandField :=
  if acc.1.contains field.name then acc
  else (field.name :: acc.1, acc.2 ++ [field])

/-- Final validation pass of extract_form: keep only the first field for
each name. -/
def finalValidate (fields : List CandField) : List CandField :=
  (fields.foldl finalStep ([], [])).2

/-- The complete deduplication step of extract_form: the duplicate-removal
loop followed by the final uniqueness validation. -/
def dedupe (fields : List CandField) : List CandField :=
  finalValidate (dedupPass fields)

example :
    dedupe [⟨"ho_ten", "text", "A", true, "d1"⟩, ⟨"ho_ten", "text", "B", true, "d2"⟩] =
      [⟨"ho_ten", "text", "A", true, "d1 | d2"⟩] := by decide

example :
    dedupe [⟨"a", "text", "L1", false, "D1"⟩, ⟨"a", "date", "L2", false, "D2"⟩] =
      [⟨"a", "text", "L1", false, "D1"⟩] := by decide

/-! ### JSON values and a model of Python json.loads -/

/-- JSON values.  Numbers are modelled as integers: the backend JSON
payloads relevant to the claims contain no fractional or exponent
literals, and the parser model rejects them rather than misreading. -/
inductive Json where
  | null : Json
  | bool (b : Bool) : Json
  | num (n : Int) : Json
  | str (s : String) : Json
  | arr (elems : List Json) : Json
  | obj (members : List (String × Json)) : Json

/-- The whitespace accepted between JSON tokens by json.loads. -/
def jsonWs (c : Char) : Bool :=
  c == ' ' || c == '\t' || c == '\n' || c == '\r'

/-- Skip JSON inter-token whitespace. -/
def skipWs (l : List Char) : List Char := l.dropWhile jsonWs

/-- Single-character JSON string escapes (the uXXXX form is not modelled;
no input exercised here contains it).  The mapped codes are the quote,
backslash, slash, backspace, form feed, newline, carriage return, tab. -/
def parseEscape (c : Char) : Option Char :=
  match c.toNat with
  | 0x22 => some (Char.ofNat 0x22)
  | 0x5C => some (Char.ofNat 0x5C)
  | 0x2F => some (Char.ofNat 0x2F)
  | 0x62 => some (Char.ofNat 8)
  | 0x66 => some (Char.ofNat 12)
  | 0x6E => some (Char.ofNat 10)
  | 0x72 => some (Char.ofNat 13)
  | 0x74 => some (Char.ofNat 9)
  | _ => none

/-- Parse the body of a JSON string after the opening quote, returning
the contents and the remaining input.  Unescaped control characters and
an unterminated string are rejected, as by json.loads. -/
def parseStringBody : List Char → Option (List Char × List Char)
  | [] => none
  | c :: rest =>
    if c == '"' then some ([], rest)
    else if c == '\\' then
      match rest with
      | [] => none
      | e :: rest2 =>
        match parseEscape e with
        | some ch =>
          match parseStringBody rest2 with
          | some (s, r) => some (ch :: s, r)
          | none => none
        | none => none
    else if c.toNat < 0x20 then none
    else
      match parseStringBody rest with
      | some (s, r) => some (c :: s, r)
      | none => none

/-- Numeric value of a digit list. -/
def digitsVal (ds : List Char) : Nat :=
  ds.foldl (fun a c => a * 10 + (c.toNat - 48)) 0

/-- Parse a JSON integer literal (minus sign and digits; fractional or
exponent forms are rejected by this model). -/
def parseNumber (l : List Char) : Option (Json × List Char) :=
  let neg := match l with
    | '-' :: _ => true
    | _ => false
  let l1 := if neg then l.drop 1 else l
  let ds := l1.takeWhile Char.isDigit
  let rest := l1.dropWhile Char.isDigit
  if ds = [] then none
  else
    match rest with
    | c :: _ =>
      if c == '.' || c == 'e' || c == 'E' then none
      else some (Json.num (if neg then -(digitsVal ds : Int) else (digitsVal ds : Int)), rest)
    | [] => some (Json.num (if neg then -(digitsVal ds : Int) else (digitsVal ds : Int)), rest)

mutual

/-- Parse one JSON value (fuelled recursive-descent model of json.loads). -/
def parseValue : Nat → List Char → Option (Json × List Char)
  | 0, _ => none
  | fuel + 1, l =>
    match skipWs l with
    | [] => none
    | '"' :: rest => (parseStringBody rest).map (fun p => (Json.str (String.mk p.1), p.2))
    | '{' :: rest => parseObj fuel rest
    | '[' :: rest => parseArr fuel rest
    | 't' :: rest => if "rue".data.isPrefixOf rest then some (Json.bool true, rest.drop 3) else none
    | 'f' :: rest => if "alse".data.isPrefixOf rest then some (Json.bool false, rest.drop 4) else none
    | 'n' :: rest => if "ull".data.isPrefixOf rest then some (Json.null, rest.drop 3) else none
    | l2 => parseNumber l2

/-- Parse a JSON object after the opening brace. -/
def parseObj : Nat → List Char → Option (Json × List Char)
  | 0, _ => none
  | fuel + 1, l =>
    match skipWs l with
    | '}' :: r => some (Json.obj [], r)
    | _ => parseMembers fuel l []

/-- Parse the members of a JSON object (at least one expected). -/
def parseMembers : Nat → List Char → List (String × Json) → Option (Json × List Char)
  | 0, _, _ => none
  | fuel + 1, l, acc =>
    match skipWs l with
    | '"' :: rest =>
      match parseStringBody rest with
      | some (k, r1) =>
        match skipWs r1 with
        | ':' :: r2 =>
          match parseValue fuel r2 with
          | some (v, r3) =>
            match skipWs r3 with
            | ',' :: r4 => parseMembers fuel r4 (acc ++ [(String.mk k, v)])
            | '}' :: r4 => some (Json.obj (acc ++ [(String.mk k, v)]), r4)
            | _ => none
          | none => none
        | _ => none
      | none => none
    | _ => none

/-- Parse a JSON array after the opening bracket. -/
def parseArr : Nat → List Char → Option (Json × List Char)
  | 0, _ => none
  | fuel + 1, l =>
    match skipWs l with
    | ']' :: r => some (Json.arr [], r)
    | _ => parseElems fuel l []

/-- Parse the elements of a JSON array (at least one expected). -/
def parseElems : Nat → List Char → List Json → Option (Json × List Char)
  | 0, _, _ => none
  | fuel + 1, l, acc =>
    match parseValue fuel l with
    | some (v, r) =>
      match skipWs r with
      | ',' :: r2 => parseElems fuel r2 (acc ++ [v])
      | ']' :: r2 => some (Json.arr (acc ++ [v]), r2)
      | _ => none
    | none => none

end

/-- Model of Python json.loads: parse one value, require only whitespace
after it.  The fuel is generous for any input length. -/
def json_loads (s : String) : Option Json :=
  match parseValue (4 * s.length + 8) s.data with
  | some (v, rest) => if skipWs rest = [] then some v else none
  | none => none

/-- Dictionary key membership (Python key in dict on a parsed object). -/
def Json.hasKey (j : Json) (key : String) : Bool :=
  match j with
  | Json.obj ms => ms.any (fun kv => kv.1 == key)
  | _ => false

/-- Dictionary lookup on a parsed object; the last binding wins, as for
duplicate keys in json.loads. -/
def Json.lookup (j : Json) (key : String) : Option Json :=
  match j with
  | Json.obj ms => (ms.reverse.find? (fun kv => kv.1 == key)).map (fun kv => kv.2)
  | _ => none

/-- Python dict.get with a default. -/
def Json.getD (j : Json) (key : String) (dflt : Json) : Json :=
  match j.lookup key with
  | some v => v
  | none => dflt

/-- Python truthiness of a JSON value. -/
def Json.truthy : Json → Bool
  | Json.null => false
  | Json.bool b => b
  | Json.num n => !(n == 0)
  | Json.str s => !(s == "")
  | Json.arr xs => !xs.isEmpty
  | Json.obj ms => !ms.isEmpty

example : json_loads "\x7b\"a\": 1\x7d" = some (Json.obj [("a", Json.num 1)]) := rfl
example : json_loads "\x7b\"a\": [true, null, \"x\"]\x7d" =
    some (Json.obj [("a", Json.arr [Json.bool true, Json.null, Json.str "x"])]) := rfl
example : json_loads "\x7b\"a\": 1" = none := rfl

/-! ### try_parse_json (backend/chains/form_chain.py) -/

/-- The backquote character (code 96). -/
def backquote : Char := Char.ofNat 96

/-- Model of re.sub removing a leading code fence: three backquotes at
the start of the text, optional ASCII letters (the language tag), then
optional whitespace. -/
def stripFence (l : List Char) : List Char :=
  match l with
  | a :: b :: c :: rest =>
    if a == backquote && b == backquote && c == backquote then
      (rest.dropWhile Char.isAlpha).dropWhile pyIsSpace
    else l
  | _ => l

/-- Model of re.sub removing a trailing code fence: three backquotes at
the very end, or immediately before a final newline. -/
def stripTrailingFence (l : List Char) : List Char :=
  if [backquote, backquote, backquote].isSuffixOf l then l.take (l.length - 3)
  else if [backquote, backquote, backquote, '\n'].isSuffixOf l then
    l.take (l.length - 4) ++ ['\n']
  else l

/-- form_chain.py clean_llm_output: drop markdown fences, then strip. -/
def clean_llm_output (text : String) : String :=
  String.mk (pyStrip (stripTrailingFence (stripFence text.data)))

/-- Remove ASCII control characters (the re.sub on the range x00-x1F and
x7F applied before re-parsing). -/
def stripCtrl (l : List Char) : List Char :=
  l.filter (fun c => !(c.toNat ≤ 0x1F || c.toNat == 0x7F))

/-- The greedy DOTALL search for an open brace followed by anything and a
closing brace: the slice from the first open brace to the last closing
brace, provided the latter comes after the former. -/
def braceSlice (l : List Char) : Option (List Char) :=
  match l.findIdx? (fun c => c == '{'), (l.reverse.findIdx? (fun c => c == '}')) with
  | some i, some k =>
    let j := l.length - 1 - k
    if i < j then some ((l.drop i).take (j - i + 1)) else none
  | _, _ => none

/-- The literal characters of the quoted key fields. -/
def fieldsPat : List Char := ['"', 'f', 'i', 'e', 'l', 'd', 's', '"']

/-- Does the salvage pattern (quoted fields key, optional whitespace,
colon, optional whitespace, open bracket) match at index i? -/
def fieldsArrAt (l : List Char) (i : Nat) : Bool :=
  let t := l.drop i
  if fieldsPat.isPrefixOf t then
    match (t.drop 8).dropWhile pyIsSpace with
    | ':' :: r2 =>
      match r2.dropWhile pyIsSpace with
      | '[' :: _ => true
      | _ => false
    | _ => false
  else false

/-- The DOTALL search for the fields array: everything from the first
match of the salvage pattern to the end of the text. -/
def findFieldsArr (l : List Char) : Option (List Char) :=
  ((List.range l.length).find? (fun i => fieldsArrAt l i)).map (fun i => l.drop i)

/-- Does the trailing-incomplete-object pattern (comma, optional
whitespace, open brace, then no closing brace up to the end) match at
index i? -/
def incompleteTailAt (l : List Char) (i : Nat) : Bool :=
  match l.drop i with
  | ',' :: rest =>
    match rest.dropWhile pyIsSpace with
    | c :: r2 => c == '{' && !(r2.contains '}')
    | [] => false
  | _ => false

/-- Model of the re.sub trimming a trailing comma-plus-incomplete-object:
cut the text at the leftmost match of the pattern. -/
def dropTrailingIncomplete (l : List Char) : List Char :=
  match (List.range l.length).find? (fun i => incompleteTailAt l i) with
  | some i => l.take i
  | none => l

/-- form_chain.py FormProcessingChain.try_parse_json: direct parse, then
the brace slice, then the fields-array salvage with dangling-quote and
bracket repair, then the trailing-incomplete-object trim.  none models a
raised exception (either the explicit ValueError or a final
JSONDecodeError). -/
def try_parse_json (text0 : String) : Option Json :=
  let text := clean_llm_output text0
  match json_loads text with
  | some v => some v
  | none =>
    match (match braceSlice text.data with
           | some s => json_loads (String.mk (stripCtrl s))
           | none => none) with
    | some v => some v
    | none =>
      match findFieldsArr text.data with
      | some arr0 =>
        let arr1 := if arr0.count '"' % 2 == 1 then arr0 ++ ['"'] else arr0
        let arr2 := if [']'].isSuffixOf arr1 then arr1 else arr1 ++ [']']
        match json_loads (String.mk (stripCtrl (['{', ' '] ++ arr2 ++ [' ', '}']))) with
        | some v => some v
        | none =>
          let fixed := dropTrailingIncomplete arr2 ++ [']']
          json_loads (String.mk (['{', ' '] ++ fixed ++ [' ', '}']))
      | none => none

example :
    try_parse_json "\x7b\"fields\": [\x7b\"name\":\"a\",\"value\":\"1\"\x7d,\x7b\"name\":\"b\"" =
      some (Json.obj [("fields",
        Json.arr [Json.obj [("name", Json.str "a"), ("value", Json.str "1")]])]) := rfl

/-! ### fill_form (backend/chains/form_chain.py) -/

/-- A chat message as passed to the backend pipelines. -/
structure ChatMsg where
  role : String
  content : String

/-- The two validation failures fill_form raises to its caller. -/
inductive FillError where
  | invalidSchema : FillError
  | conversationTooLong : FillError
deriving DecidableEq

/-- Is this JSON value an object? -/
def Json.isObj : Json → Bool
  | Json.obj _ => true
  | _ => false

/-- The fallback result of fill_form: every schema field mapped to the
sentinel ASK_USER. -/
def askUserFallback (schemaFields : List Json) : Json :=
  Json.obj [("fields", Json.arr (schemaFields.map (fun f =>
    Json.obj [("name", f.getD "name" (Json.str "unknown")),
              ("value", Json.str "ASK_USER")])))]

/-- form_chain.py FormProcessingChain.fill_form.  The form_schema dict is
represented by its fields list (the two falsy validations, empty dict
and falsy fields value, both collapse to the empty list).  The combined
outcome of the chain invocation is the oracle invokeResult; none models
any exception raised inside the try block. -/
def fill_form (schemaFields : List Json) (chat_history : List ChatMsg)
    (invokeResult : Option String) : Except FillError Json :=
  if schemaFields.isEmpty then .error .invalidSchema
  else if chat_history.length > 50 then .error .conversationTooLong
  else
    match invokeResult with
    | some s =>
      match try_parse_json s with
      | some v => .ok v
      | none => .ok (askUserFallback schemaFields)
    | none => .ok (askUserFallback schemaFields)

/-! ### extract_form_fields (backend/chains/form_chain.py) -/

/-- The manual-entry placeholder returned for empty input. -/
def manualEntryField : Json :=
  Json.obj [("name", Json.str "manual_entry"), ("type", Json.str "text"),
            ("label", Json.str "Manual Entry"), ("required", Json.bool false),
            ("description", Json.str "⚠️ No text provided, please fill manually")]

/-- The generic fallback field when parsing produced nothing usable. -/
def formContentGeneric : Json :=
  Json.obj [("name", Json.str "form_content"), ("type", Json.str "text"),
            ("label", Json.str "Form Content"), ("required", Json.bool true),
            ("description", Json.str "Please fill out the form content")]

/-- The fallback field returned when the try block raised. -/
def formContentError : Json :=
  Json.obj [("name", Json.str "form_content"), ("type", Json.str "text"),
            ("label", Json.str "Form Content"), ("required", Json.bool true),
            ("description", Json.str "Error extracting fields, please fill manually")]

/-- Normalisation of one field dict in the new fields shape. -/
def mkField1 (field : Json) : Json :=
  Json.obj [("name", field.getD "name" (Json.str "unnamed_field")),
            ("type", field.getD "type" (Json.str "text")),
            ("label", field.getD "label" (field.getD "name" (Json.str "Unnamed field"))),
            ("required", field.getD "required" (Json.bool true)),
            ("description", field.getD "description" (Json.str ""))]

/-- Python str.replace: remove every occurrence of pat from l (the only
use replaces with the empty string). -/
def removeSub (pat : List Char) (l : List Char) : List Char :=
  match l with
  | [] => []
  | c :: rest =>
    if !pat.isEmpty && pat.isPrefixOf (c :: rest) then
      removeSub pat (rest.drop (pat.length - 1))
    else c :: removeSub pat rest
termination_by l.length
decreasing_by
  · simp only [List.length_drop, List.length_cons]
    omega
  · simp only [List.length_cons]
    omega

/-- Normalisation of one field dict in the legacy form_fields shape; the
field_type value must be a string for the replace call, otherwise the
Python code raises (modelled as error). -/
def mkField2 (field : Json) : Except Unit Json :=
  match field.getD "field_type" (Json.str "text") with
  | Json.str ft =>
    .ok (Json.obj [("name", field.getD "field_name" (Json.str "unnamed_field")),
                   ("type", Json.str (String.mk (removeSub "_input".data ft.data))),
                   ("label", field.getD "field_name" (Json.str "Unnamed field")),
                   ("required", field.getD "required" (Json.bool true)),
                   ("description", field.getD "description" (Json.str ""))])
  | _ => .error ()

/-- Branch for the new fields shape: a dict with a non-empty fields list
whose dict elements normalise to a non-empty list. -/
def fieldsBranch (parsed : Json) : Option (List Json) :=
  if parsed.isObj && parsed.hasKey "fields" then
    match parsed.lookup "fields" with
    | some (Json.arr fields) =>
      if fields.isEmpty then none
      else
        let nf := (fields.filter Json.isObj).map mkField1
        if nf.isEmpty then none else some nf
    | _ => none
  else none

/-- Branch for the legacy form_fields shape. -/
def formFieldsBranch (parsed : Json) : Except Unit (Option (List Json)) :=
  if parsed.isObj && parsed.hasKey "form_fields" then
    match parsed.lookup "form_fields" with
    | some (Json.arr fields) =>
      if fields.isEmpty then .ok none
      else
        match (fields.filter Json.isObj).mapM mkField2 with
        | .error e => .error e
        | .ok nf => if nf.isEmpty then .ok none else .ok (some nf)
    | _ => .ok none
  else .ok none

/-- Python iteration over a JSON value: lists yield elements, strings
yield one-character strings, dicts yield their keys; other values are
not iterable (TypeError, modelled as error). -/
def pyIter (v : Json) : Except Unit (List Json) :=
  match v with
  | Json.arr xs => .ok xs
  | Json.str s => .ok (s.data.map (fun c => Json.str (String.mk [c])))
  | Json.obj ms => .ok (ms.map (fun kv => Json.str kv.1))
  | _ => .error ()

/-- The guard of the description-splitting branch: does any iterated
element look like a dict with a description key? -/
def anyHasDescription (v : Json) : Except Unit Bool :=
  match pyIter v with
  | .error e => .error e
  | .ok xs => .ok (xs.any (fun f => f.isObj && f.hasKey "description"))

/-- Python description in field followed by the isinstance-str check:
returns the description string when the guard passes, none when the
guard fails, and error when the Python expressions would raise. -/
def descrOf (field : Json) : Except Unit (Option String) :=
  match field with
  | Json.obj _ =>
    if field.hasKey "description" then
      match field.lookup "description" with
      | some (Json.str d) => .ok (some d)
      | _ => .ok none
    else .ok none
  | Json.str s =>
    if containsSub "description".data s.data then .error () else .ok none
  | Json.arr xs =>
    if xs.any (fun x => match x with | Json.str s2 => s2 == "description" | _ => false) then
      .error ()
    else .ok none
  | _ => .error ()

/-- Python str.split on the bar character (keeping empty pieces). -/
def splitOnBar : List Char → List (List Char)
  | [] => [[]]
  | c :: rest =>
    if c == '|' then [] :: splitOnBar rest
    else
      match splitOnBar rest with
      | [] => [[c]]
      | w :: ws => (c :: w) :: ws

/-- The description-splitting loop: the first field whose stripped
bar-separated description pieces number more than one produces the
returned field list. -/
def splitLoop : List Json → Except Unit (Option (List Json))
  | [] => .ok none
  | f :: rest =>
    match descrOf f with
    | .error e => .error e
    | .ok none => splitLoop rest
    | .ok (some d) =>
      let descriptions := ((splitOnBar d.data).map pyStrip).filter (fun x => !x.isEmpty)
      if descriptions.length > 1 then
        .ok (some (descriptions.enum.map (fun p =>
          Json.obj [("name", Json.str ("field_" ++ toString (p.1 + 1))),
                    ("type", Json.str "text"),
                    ("label", Json.str (String.mk p.2)),
                    ("required", Json.bool true),
                    ("description", Json.str (String.mk p.2))])))
      else splitLoop rest

/-- The body of the try block of extract_form_fields after parsing. -/
def extractCore (parsed : Json) : Except Unit (List Json) :=
  match fieldsBranch parsed with
  | some nf => .ok nf
  | none =>
    match formFieldsBranch parsed with
    | .error e => .error e
    | .ok (some nf) => .ok nf
    | .ok none =>
      if parsed.isObj then
        match anyHasDescription (parsed.getD "fields" (Json.arr [])) with
        | .error e => .error e
        | .ok true =>
          match pyIter (parsed.getD "fields" (Json.arr [])) with
          | .error e => .error e
          | .ok xs =>
            match splitLoop xs with
            | .error e => .error e
            | .ok (some nf) => .ok nf
            | .ok none => .ok [formContentGeneric]
        | .ok false => .ok [formContentGeneric]
      else .ok [formContentGeneric]

/-- form_chain.py FormProcessingChain.extract_form_fields, returning the
fields list of the response dict.  invokeResult is the chain invocation
oracle; none models an exception raised by the invocation. -/
def extract_form_fields (form_text : String) (invokeResult : Option String) : List Json :=
  if (pyStrip form_text.data).isEmpty then [manualEntryField]
  else
    match invokeResult with
    | none => [formContentError]
    | some s =>
      match try_parse_json s with
      | none => [formContentError]
      | some parsed =>
        match extractCore parsed with
        | .ok fs => fs
        | .error _ => [formContentError]

/-! ### SimpleSeaLionLLM._call (backend/simple_llm.py) -/

/-- A call_model outcome counts as usable when it is a non-empty string
(Python if result checks truthiness, so both None and the empty string
fall through to the next attempt). -/
def okResult (r : Option String) : Bool :=
  match r with
  | some s => !(s == "")
  | none => false

/-- The retry loop over a list of attempt indices: returns the first
usable outcome together with the indices actually attempted and the
backoff sleeps performed (seconds). -/
def runAttempts (f : Nat → Option String) (maxRetries : Nat) :
    List Nat → Option String × List Nat × List Nat
  | [] => (none, [], [])
  | i :: rest =>
    if okResult (f i) then (f i, [i], [])
    else
      let r := runAttempts f maxRetries rest
      (r.1, i :: r.2.1, (if i < maxRetries then [min (2 ^ i) 8] else []) ++ r.2.2)

/-- One retry phase of _call: attempts 0 through maxRetries, sleeping
min(2 to the attempt, 8) seconds after each failed non-final attempt. -/
def retryPhase (f : Nat → Option String) (maxRetries : Nat) :
    Option String × List Nat × List Nat :=
  runAttempts f maxRetries (List.range (maxRetries + 1))

/-- The fallback-model discovery from the models listing: the first model
name containing SEA-LION, ending in -IT and not containing 70B, else
the first listed model, else the empty string. -/
def discoverFallback (models : List String) : String :=
  let candidates := models.filter (fun m =>
    containsSub "SEA-LION".data m.data && "-IT".data.isSuffixOf m.data &&
    !(containsSub "70B".data m.data))
  match candidates with
  | c :: _ => c
  | [] =>
    match models with
    | m :: _ => m
    | [] => ""

/-- The fixed graceful-fallback text returned when every attempt fails
(the three adjacent Python string literals concatenated). -/
def apologyText : String :=
  "I\x27m experiencing connectivity issues with the AI service. This appears to be a temporary service outage. Please try again in a few minutes. If the issue persists, the service provider may be experiencing downtime."

/-- simple_llm.py SimpleSeaLionLLM._call: primary retry phase, fallback
model selection (environment override or discovery), fallback retry
phase, and the fixed apology on total failure.  primary and fb give the
outcome of each attempt against the respective model. -/
def sealion_call (model : String) (maxRetries : Nat) (fallbackEnv : String)
    (models : List String) (primary fb : Nat → Option String) : String :=
  match (retryPhase primary maxRetries).1 with
  | some s => s
  | none =>
    let fallbackModel := if fallbackEnv = "" then discoverFallback models else fallbackEnv
    match (if fallbackModel ≠ "" ∧ fallbackModel ≠ model then
             (retryPhase fb maxRetries).1
           else none) with
    | some s => s
    | none => apologyText

/-! ### should_trigger_rag (backend/main.py) -/

/-- The generic help-seeking keywords checked on the first turn. -/
def vague_keywords : List String :=
  ["help", "information", "what", "how", "need", "want", "about", "question"]

/-- The first-turn vagueness test: at most three whitespace-delimited
tokens, or the lowercased message contains a vague keyword. -/
def isShortOrVague (message : String) : Bool :=
  decide ((pySplitWs message).length ≤ 3) ||
  vague_keywords.any (fun w => containsSub w.data (pyLower message.data))

/-- The affirmative-token test on the clarification-check reply. -/
def affirmative (resp : String) : Bool :=
  containsSub "yes".data (pyStrip (pyLower resp.data))

/-- backend/main.py should_trigger_rag.  The conversation context only
feeds the prompt of the lightweight LLM check, whose reply is the oracle
llmReply; none models any exception inside the try block (the fallback
branch). -/
def should_trigger_rag (message : String) (conversation_context : List ChatMsg)
    (response_type : String) (conversation_turns max_turns : Nat)
    (llmReply : Option String) : Bool :=
  if conversation_turns == 0 && isShortOrVague message then false
  else if conversation_turns ≥ max_turns then true
  else
    match llmReply with
    | some resp => affirmative resp
    | none =>
      (response_type == "ragLink" || response_type == "ragForm") &&
      decide (conversation_turns ≥ 2)

example : should_trigger_rag "help" [] "ragLink" 0 5 (some "YES") = false := by decide
example : should_trigger_rag "anything at all here now" [] "ragForm" 5 5 none = true := by decide
example : should_trigger_rag "renew my passport in Hanoi office" [] "ragLink" 1 5 (some " Yes.") = true := by decide
example : should_trigger_rag "renew my passport in Hanoi office" [] "ragLink" 1 5 none = false := by decide
example : should_trigger_rag "renew my passport in Hanoi office" [] "ragLink" 2 5 none = true := by decide

/-! ### Character-level lemmas for field-name normalization -/

/-- The codepoint action of pyLowerChar, for arithmetic reasoning. -/
def pyLowerNat (n : Nat) : Nat :=
  if (65 ≤ n && n ≤ 90) || (0xC0 ≤ n && n ≤ 0xDE && n != 0xD7) then n + 32
  else if n == 0x178 then 0xFF
  else if upperLatinA n then n + 1
  else n

theorem toNat_ofNat_of_lt {n : Nat} (h : n < 0xd800) : (Char.ofNat n).toNat = n := by
  rw [Char.ofNat, dif_pos (Or.inl h)]
  rfl

theorem pyLowerChar_toNat (c : Char) : (pyLowerChar c).toNat = pyLowerNat c.toNat := by
  unfold pyLowerChar pyLowerNat
  dsimp only
  split_ifs with h1 h2 h3
  · apply toNat_ofNat_of_lt
    simp only [Bool.or_eq_true, Bool.and_eq_true, decide_eq_true_eq, bne_iff_ne] at h1
    omega
  · apply toNat_ofNat_of_lt
    omega
  · apply toNat_ofNat_of_lt
    unfold upperLatinA at h3
    simp only [Bool.or_eq_true, Bool.and_eq_true, decide_eq_true_eq, beq_iff_eq] at h3
    omega
  · rfl

theorem pyLowerNat_idem (n : Nat) : pyLowerNat (pyLowerNat n) = pyLowerNat n := by
  unfold pyLowerNat upperLatinA
  simp only [Bool.or_eq_true, Bool.and_eq_true, decide_eq_true_eq, bne_iff_ne, beq_iff_eq]
  split_ifs <;> omega

theorem pyLowerNat_ne_dottedI (n : Nat) : pyLowerNat n ≠ 0x130 := by
  unfold pyLowerNat upperLatinA
  simp only [Bool.or_eq_true, Bool.and_eq_true, decide_eq_true_eq, bne_iff_ne, beq_iff_eq]
  split_ifs <;> omega

theorem pyLowerChar_fixed_of_nat (d : Char) (hd : pyLowerNat d.toNat = d.toNat) :
    pyLowerChar d = d := by
  unfold pyLowerChar
  dsimp only
  split_ifs with h1 h2 h3
  · exfalso
    rw [pyLowerNat, if_pos h1] at hd
    omega
  · exfalso
    rw [pyLowerNat, if_neg h1, if_pos h2] at hd
    simp only [beq_iff_eq] at h2
    omega
  · exfalso
    rw [pyLowerNat, if_neg h1, if_neg h2, if_pos h3] at hd
    omega
  · rfl

/-- A character is stable under the lowering pass: pyLowerChar fixes it
and it is not U+0130. -/
def loweredOut (c : Char) : Prop := pyLowerChar c = c ∧ c.toNat ≠ 0x130

theorem loweredOut_pyLowerChar (c : Char) : loweredOut (pyLowerChar c) := by
  constructor
  · apply pyLowerChar_fixed_of_nat
    rw [pyLowerChar_toNat, pyLowerNat_idem]
  · rw [pyLowerChar_toNat]
    exact pyLowerNat_ne_dottedI c.toNat

theorem pyLower_output_lowered (l : List Char) : ∀ c ∈ pyLower l, loweredOut c := by
  intro c hc
  rw [pyLower, List.mem_flatMap] at hc
  obtain ⟨a, _, hmem⟩ := hc
  by_cases h130 : a.toNat == 0x130
  · rw [if_pos h130] at hmem
    simp only [List.mem_cons, List.not_mem_nil, or_false] at hmem
    rcases hmem with rfl | rfl
    · exact ⟨by decide, by decide⟩
    · exact ⟨by decide, by decide⟩
  · rw [if_neg h130] at hmem
    simp only [List.mem_cons, List.not_mem_nil, or_false] at hmem
    subst hmem
    exact loweredOut_pyLowerChar a

theorem pyLower_fixed (l : List Char) (h : ∀ c ∈ l, loweredOut c) : pyLower l = l := by
  induction l with
  | nil => rfl
  | cons c rest ih =>
    have hc := h c (List.mem_cons_self c rest)
    have hrec := ih (fun d hd => h d (List.mem_cons_of_mem c hd))
    unfold pyLower at hrec ⊢
    rw [List.flatMap_cons, if_neg (by simpa using hc.2), hc.1, hrec]
    rfl

theorem keptChar_not_space (c : Char) (h : keptChar c = true) : pyIsSpace c = false := by
  unfold keptChar at h
  unfold pyIsSpace
  dsimp only at h ⊢
  simp only [Bool.or_eq_true, Bool.and_eq_true, decide_eq_true_eq, beq_iff_eq] at h
  rw [Bool.eq_false_iff]
  intro hs
  simp only [Bool.or_eq_true, Bool.and_eq_true, decide_eq_true_eq, beq_iff_eq] at hs
  omega

theorem loweredOut_underscore : loweredOut '_' := ⟨by decide, by decide⟩

/-! ### List-level lemmas for field-name normalization -/

theorem dropWhile_head_false {p : Char → Bool} {l : List Char}
    (h : ∀ c, l.head? = some c → p c = false) : l.dropWhile p = l := by
  cases l with
  | nil => rfl
  | cons c rest =>
    rw [List.dropWhile_cons, h c rfl]
    simp

theorem dropWhile_all_false {p : Char → Bool} {l : List Char}
    (h : ∀ c ∈ l, p c = false) : l.dropWhile p = l := by
  apply dropWhile_head_false
  intro c hc
  apply h
  cases l with
  | nil => cases hc
  | cons d rest =>
    rw [List.head?_cons] at hc
    injection hc with hdc
    rw [← hdc]
    exact List.mem_cons_self d rest

theorem dropWhile_all_true {p : Char → Bool} {l : List Char}
    (h : ∀ c ∈ l, p c = true) : l.dropWhile p = [] := by
  induction l with
  | nil => rfl
  | cons c rest ih =>
    rw [List.dropWhile_cons, h c (List.mem_cons_self c rest)]
    exact ih (fun d hd => h d (List.mem_cons_of_mem c hd))

theorem stripBoth_all_false {p : Char → Bool} {l : List Char}
    (h : ∀ c ∈ l, p c = false) : stripBoth p l = l := by
  unfold stripBoth dropTrailing
  rw [dropWhile_all_false h,
      dropWhile_all_false (fun c hc => h c (List.mem_reverse.mp hc)),
      List.reverse_reverse]

theorem stripBoth_all_true {p : Char → Bool} {l : List Char}
    (h : ∀ c ∈ l, p c = true) : stripBoth p l = [] := by
  unfold stripBoth dropTrailing
  rw [dropWhile_all_true h]
  rfl

theorem mem_of_mem_dropTrailing {p : Char → Bool} {l : List Char} {c : Char}
    (h : c ∈ dropTrailing p l) : c ∈ l := by
  unfold dropTrailing at h
  rw [List.mem_reverse] at h
  exact List.mem_reverse.mp ((List.dropWhile_sublist p).subset h)

theorem mem_of_mem_stripBoth {p : Char → Bool} {l : List Char} {c : Char}
    (h : c ∈ stripBoth p l) : c ∈ l :=
  (List.dropWhile_sublist p).subset (mem_of_mem_dropTrailing h)

theorem mem_of_mem_collapseUnders {l : List Char} {c : Char}
    (h : c ∈ collapseUnders l) : c ∈ l := by
  induction l with
  | nil => exact absurd h (List.not_mem_nil c)
  | cons d rest ih =>
    rw [collapseUnders] at h
    by_cases hc : (d == '_' && (collapseUnders rest).head? == some '_') = true
    · rw [if_pos hc] at h
      exact List.mem_cons_of_mem d (ih h)
    · rw [if_neg hc] at h
      rcases List.mem_cons.mp h with rfl | h2
      · exact List.mem_cons_self c rest
      · exact List.mem_cons_of_mem d (ih h2)

/-- The adjacency invariant of the collapsed form: no two consecutive
underscores. -/
def noDD (a b : Char) : Prop := ¬(a = '_' ∧ b = '_')

theorem chain'_collapseUnders (l : List Char) : List.Chain' noDD (collapseUnders l) := by
  induction l with
  | nil => exact List.chain'_nil
  | cons c rest ih =>
    rw [collapseUnders]
    by_cases hc : (c == '_' && (collapseUnders rest).head? == some '_') = true
    · rw [if_pos hc]
      exact ih
    · rw [if_neg hc]
      rw [List.chain'_cons']
      refine ⟨?_, ih⟩
      intro y hy hcy
      apply hc
      rw [Bool.and_eq_true, beq_iff_eq, beq_iff_eq]
      rw [Option.mem_def] at hy
      exact ⟨hcy.1, by rw [hy, hcy.2]⟩

theorem collapseUnders_fixed {l : List Char} (h : List.Chain' noDD l) :
    collapseUnders l = l := by
  induction l with
  | nil => rfl
  | cons c rest ih =>
    rw [List.chain'_cons'] at h
    have hrec := ih h.2
    have hcond : (c == '_' && (collapseUnders rest).head? == some '_') = false := by
      rw [hrec]
      cases hh : rest.head? with
      | none => simp
      | some y =>
        have hy := h.1 y (by rw [Option.mem_def, hh])
        by_cases hcu : c = '_'
        · have hyu : y ≠ '_' := fun he => hy ⟨hcu, he⟩
          simp [hyu]
        · simp [hcu]
    rw [collapseUnders, hcond]
    rw [hrec]
    simp

theorem chain'_noDD_flip {l : List Char} (h : List.Chain' noDD l) :
    List.Chain' (flip noDD) l :=
  h.imp (fun _ _ hab => fun hc => hab ⟨hc.2, hc.1⟩)

theorem chain'_flip_noDD {l : List Char} (h : List.Chain' (flip noDD) l) :
    List.Chain' noDD l :=
  h.imp (fun _ _ hab => fun hc => hab ⟨hc.2, hc.1⟩)

theorem chain'_dropWhile {R : Char → Char → Prop} {p : Char → Bool} {l : List Char}
    (h : List.Chain' R l) : List.Chain' R (l.dropWhile p) := by
  obtain ⟨t, ht⟩ := List.dropWhile_suffix (l := l) p
  rw [← ht] at h
  exact h.right_of_append

theorem chain'_stripBoth {p : Char → Bool} {l : List Char}
    (h : List.Chain' noDD l) : List.Chain' noDD (stripBoth p l) := by
  unfold stripBoth dropTrailing
  have h1 : List.Chain' noDD (l.dropWhile p) := chain'_dropWhile h
  have h2 : List.Chain' noDD ((l.dropWhile p).reverse) :=
    List.chain'_reverse.mpr (chain'_noDD_flip h1)
  have h3 : List.Chain' noDD (((l.dropWhile p).reverse).dropWhile p) := chain'_dropWhile h2
  exact List.chain'_reverse.mpr (chain'_noDD_flip h3)

theorem dropTrailing_head? {p : Char → Bool} {l : List Char} {c : Char}
    (h : (dropTrailing p l).head? = some c) : l.head? = some c := by
  obtain ⟨t, ht⟩ := List.dropWhile_suffix (l := l.reverse) p
  have hl : l = (dropTrailing p l) ++ t.reverse := by
    have h2 := congrArg List.reverse ht
    rw [List.reverse_append, List.reverse_reverse] at h2
    exact h2.symm
  cases hd : dropTrailing p l with
  | nil => rw [hd] at h; cases h
  | cons x xs =>
    rw [hd] at h hl
    rw [hl]
    exact h

theorem head?_stripBoth_false {p : Char → Bool} {l : List Char} {c : Char}
    (h : (stripBoth p l).head? = some c) : p c = false := by
  unfold stripBoth at h
  have h2 := dropTrailing_head? h
  have h3 := List.head?_dropWhile_not p l
  rw [h2] at h3
  exact h3

theorem reverse_head?_stripBoth_false {p : Char → Bool} {l : List Char} {c : Char}
    (h : (stripBoth p l).reverse.head? = some c) : p c = false := by
  unfold stripBoth dropTrailing at h
  rw [List.reverse_reverse] at h
  have h3 := List.head?_dropWhile_not p ((l.dropWhile p).reverse)
  rw [h] at h3
  exact h3

theorem stripBoth_fixed_of_ends {p : Char → Bool} {l : List Char}
    (h1 : ∀ c, l.head? = some c → p c = false)
    (h2 : ∀ c, l.reverse.head? = some c → p c = false) :
    stripBoth p l = l := by
  unfold stripBoth dropTrailing
  rw [dropWhile_head_false h1, dropWhile_head_false h2, List.reverse_reverse]

theorem map_replace_fixed {l : List Char} (h : ∀ c ∈ l, keptChar c = true) :
    l.map (fun c => if keptChar c then c else '_') = l :=
  (List.map_congr_left (fun a ha => if_pos (h a ha))).trans (List.map_id l)

/-! ### Idempotence and totality of normalize_field_name -/

theorem normCore_chars (x : String) :
    ∀ c ∈ normCore x, keptChar c = true ∧ loweredOut c := by
  intro c hc
  have hc2 := mem_of_mem_collapseUnders (mem_of_mem_stripBoth hc)
  rw [List.mem_map] at hc2
  obtain ⟨a, ha, rfl⟩ := hc2
  by_cases hk : keptChar a = true
  · rw [if_pos hk]
    exact ⟨hk, pyLower_output_lowered _ _ (mem_of_mem_stripBoth ha)⟩
  · rw [if_neg hk]
    exact ⟨by decide, loweredOut_underscore⟩

theorem normCore_chain (x : String) : List.Chain' noDD (normCore x) :=
  chain'_stripBoth (chain'_collapseUnders _)

theorem normCore_head_false (x : String) :
    ∀ c, (normCore x).head? = some c → (c == '_') = false := fun _ hc =>
  head?_stripBoth_false (p := fun d => d == '_') hc

theorem normCore_last_false (x : String) :
    ∀ c, (normCore x).reverse.head? = some c → (c == '_') = false := fun _ hc =>
  reverse_head?_stripBoth_false (p := fun d => d == '_') hc

theorem normalize_cases (x : String) (hx : x ≠ "") :
    normalize_field_name x = "unnamed_field" ∨
    (normalize_field_name x = String.mk (normCore x) ∧ normCore x ≠ []) := by
  unfold normalize_field_name
  rw [if_neg hx]
  by_cases h4 : normCore x = []
  · left
    rw [if_pos h4]
  · right
    rw [if_neg h4]
    exact ⟨rfl, h4⟩

theorem normalize_fixed_of_canon (y : String)
    (hne : y.data ≠ [])
    (hchars : ∀ c ∈ y.data, keptChar c = true ∧ loweredOut c)
    (hchain : List.Chain' noDD y.data)
    (hhead : ∀ c, y.data.head? = some c → (c == '_') = false)
    (hlast : ∀ c, y.data.reverse.head? = some c → (c == '_') = false) :
    normalize_field_name y = y := by
  have hyne : y ≠ "" := by
    intro h
    apply hne
    rw [h]
  have hcore : normCore y = y.data := by
    unfold normCore
    rw [pyLower_fixed y.data (fun c hc => (hchars c hc).2)]
    rw [show pyStrip y.data = y.data from
          stripBoth_all_false (fun c hc => keptChar_not_space c (hchars c hc).1)]
    rw [map_replace_fixed (fun c hc => (hchars c hc).1)]
    rw [collapseUnders_fixed hchain]
    exact stripBoth_fixed_of_ends hhead hlast
  unfold normalize_field_name
  rw [if_neg hyne, hcore, if_neg hne]

/-- Claim C6.  Field-name normalization is idempotent and total: it is a
total function on strings, applying it twice equals applying it once,
the empty string maps to the sentinel unnamed_field, and any input whose
lowered characters all fall outside the kept class (all-garbage input)
maps to the sentinel as well. -/
theorem normalize_field_name_idempotent_total (x : String) :
    normalize_field_name (normalize_field_name x) = normalize_field_name x ∧
    normalize_field_name "" = "unnamed_field" ∧
    ((∀ c ∈ pyLower x.data, keptChar c = false) →
      normalize_field_name x = "unnamed_field") := by
  refine ⟨?_, by decide, ?_⟩
  · by_cases hx : x = ""
    · rw [hx]
      decide
    · rcases normalize_cases x hx with h | ⟨h, hne⟩
      · rw [h]
        decide
      · rw [h]
        exact normalize_fixed_of_canon (String.mk (normCore x)) hne
          (fun c hc => normCore_chars x c hc) (normCore_chain x)
          (fun c hc => normCore_head_false x c hc)
          (fun c hc => normCore_last_false x c hc)
  · intro hg
    by_cases hx : x = ""
    · rw [hx]
      decide
    · have hcore : normCore x = [] := by
        unfold normCore
        apply stripBoth_all_true
        intro c hc
        have hc2 := mem_of_mem_collapseUnders hc
        rw [List.mem_map] at hc2
        obtain ⟨a, ha, rfl⟩ := hc2
        rw [if_neg (by rw [hg a (mem_of_mem_stripBoth ha)]; decide)]
        decide
      unfold normalize_field_name
      rw [if_neg hx, if_pos hcore]

/-- Witness for C6: the idempotence and the garbage clause evaluated at
a concrete all-garbage input. -/
theorem normalize_field_name_idempotent_total_witness :
    normalize_field_name (normalize_field_name "  Ho ten !! ") =
      normalize_field_name "  Ho ten !! " ∧
    normalize_field_name "?!?" = "unnamed_field" :=
  ⟨(normalize_field_name_idempotent_total "  Ho ten !! ").1,
   (normalize_field_name_idempotent_total "?!?").2.2 (by decide)⟩

/-! ### Claim C1: the clarification-gate decision procedure -/

/-- Claim C1.  should_trigger_rag implements exactly the priority-ordered
procedure: (1) on turn zero a short (at most 3 whitespace tokens) or
vague-keyword message yields false regardless of response type; (2)
otherwise turn count at or above the cap yields true unconditionally;
(3) otherwise the lightweight LLM reply decides, by containing an
affirmative token; (4) on failure of that call, true exactly when the
proposed type is ragLink or ragForm (document/form lookup) and the turn
count is at least 2. -/
theorem should_trigger_rag_decision (message : String) (ctx : List ChatMsg)
    (rt : String) (turns maxT : Nat) (oracle : Option String) :
    (turns = 0 → isShortOrVague message = true →
      should_trigger_rag message ctx rt turns maxT oracle = false) ∧
    (¬(turns = 0 ∧ isShortOrVague message = true) → turns ≥ maxT →
      should_trigger_rag message ctx rt turns maxT oracle = true) ∧
    (∀ r, ¬(turns = 0 ∧ isShortOrVague message = true) → turns < maxT →
      oracle = some r →
      should_trigger_rag message ctx rt turns maxT oracle = affirmative r) ∧
    (¬(turns = 0 ∧ isShortOrVague message = true) → turns < maxT → oracle = none →
      should_trigger_rag message ctx rt turns maxT oracle =
        ((rt == "ragLink" || rt == "ragForm") && decide (turns ≥ 2))) := by
  unfold should_trigger_rag
  refine ⟨?_, ?_, ?_, ?_⟩
  · intro h0 hv
    rw [if_pos (by rw [Bool.and_eq_true, beq_iff_eq]; exact ⟨h0, hv⟩)]
  · intro hg hcap
    rw [if_neg (by rw [Bool.and_eq_true, beq_iff_eq]; exact hg), if_pos hcap]
  · intro r hg hlt hr
    rw [if_neg (by rw [Bool.and_eq_true, beq_iff_eq]; exact hg),
        if_neg (by omega), hr]
  · intro hg hlt hr
    rw [if_neg (by rw [Bool.and_eq_true, beq_iff_eq]; exact hg),
        if_neg (by omega), hr]

/-- Witness for C1: the four clauses at concrete inputs. -/
theorem should_trigger_rag_decision_witness :
    should_trigger_rag "help" [] "ragLink" 0 5 (some "YES") = false ∧
    should_trigger_rag "tax form for my business registration" [] "chat" 5 5 none = true ∧
    should_trigger_rag "tax form for my business registration" [] "chat" 1 5 (some "YES")
      = affirmative "YES" ∧
    should_trigger_rag "tax form for my business registration" [] "ragForm" 2 5 none
      = (("ragForm" == "ragLink" || "ragForm" == "ragForm") && decide ((2 : Nat) ≥ 2)) :=
  ⟨(should_trigger_rag_decision "help" [] "ragLink" 0 5 (some "YES")).1 rfl (by decide),
   (should_trigger_rag_decision "tax form for my business registration" [] "chat" 5 5
      none).2.1 (by simp) (by decide),
   (should_trigger_rag_decision "tax form for my business registration" [] "chat" 1 5
      (some "YES")).2.2.1 "YES" (by simp) (by decide) rfl,
   (should_trigger_rag_decision "tax form for my business registration" [] "ragForm" 2 5
      none).2.2.2 (by simp) (by decide) rfl⟩

/-! ### Claim C3: the recoverer salvages truncated field arrays -/

/-- Does the fields array of the object contain a field of the given
name? -/
def hasFieldNamed (j : Json) (nm : String) : Bool :=
  match j.lookup "fields" with
  | some (Json.arr xs) =>
    xs.any (fun f =>
      match f.lookup "name" with
      | some (Json.str s) => s == nm
      | _ => false)
  | _ => false

/-- Claim C3.  On the truncated input the recoverer succeeds (returns a
value rather than raising) and the result is an object whose fields
array contains the complete leading field named a: the trailing
incomplete object is dropped and the leading entries survive. -/
theorem try_parse_json_salvages_truncated :
    try_parse_json "\x7b\"fields\": [\x7b\"name\":\"a\",\"value\":\"1\"\x7d,\x7b\"name\":\"b\"" =
      some (Json.obj [("fields",
        Json.arr [Json.obj [("name", Json.str "a"), ("value", Json.str "1")]])]) ∧
    hasFieldNamed
      (Json.obj [("fields",
        Json.arr [Json.obj [("name", Json.str "a"), ("value", Json.str "1")]])]) "a" = true :=
  ⟨rfl, rfl⟩

/-! ### Claim C10: same name, different type slips past the first pass -/

/-- Claim C10.  Two candidates with equal normalized names but different
types: the first pass accepts both (their identity and base keys differ)
leaving two fields with the same name, and the final validation pass
then drops the second entirely — its label and description are discarded
without merging or renaming. -/
theorem dedup_drops_same_name_different_type :
    (CandField.mk "a" "text" "L1" false "D1").name =
      (CandField.mk "a" "date" "L2" false "D2").name ∧
    (CandField.mk "a" "text" "L1" false "D1").ftype ≠
      (CandField.mk "a" "date" "L2" false "D2").ftype ∧
    dedupPass [CandField.mk "a" "text" "L1" false "D1",
               CandField.mk "a" "date" "L2" false "D2"] =
      [CandField.mk "a" "text" "L1" false "D1",
       CandField.mk "a" "date" "L2" false "D2"] ∧
    dedupe [CandField.mk "a" "text" "L1" false "D1",
            CandField.mk "a" "date" "L2" false "D2"] =
      [CandField.mk "a" "text" "L1" false "D1"] ∧
    (dedupe [CandField.mk "a" "text" "L1" false "D1",
             CandField.mk "a" "date" "L2" false "D2"]).all
      (fun f => f.label ≠ "L2" && f.description ≠ "D2" &&
        !(containsSub "D2".data f.description.data)) = true := by
  refine ⟨rfl, by decide, by decide, by decide, by decide⟩

/-! ### Claim C2: dedup uniqueness and length bound -/

theorem updateFirst_length (p : CandField → Bool) (g : CandField → CandField)
    (l : List CandField) : (updateFirst p g l).length = l.length := by
  induction l with
  | nil => rfl
  | cons f rest ih =>
    unfold updateFirst
    by_cases h : p f
    · rw [if_pos h]
      rfl
    · rw [if_neg h]
      simp [ih]

theorem dedupStep_length_le (acc : List (String × String) × List CandField)
    (f : CandField) : (dedupStep acc f).2.length ≤ acc.2.length + 1 := by
  unfold dedupStep
  dsimp only
  split
  · simp
  · split
    · split
      · simp [updateFirst_length]
      · simp
    · simp

theorem foldl_dedupStep_length (fields : List CandField)
    (acc : List (String × String) × List CandField) :
    ((fields.foldl dedupStep acc).2).length ≤ acc.2.length + fields.length := by
  induction fields generalizing acc with
  | nil => simp
  | cons f rest ih =>
    rw [List.foldl_cons]
    have h1 := ih (dedupStep acc f)
    have h2 := dedupStep_length_le acc f
    simp only [List.length_cons]
    omega

theorem foldl_finalStep_invariant (fields : List CandField) (names : List String)
    (out : List CandField)
    (h1 : (out.map CandField.name).Nodup)
    (h2 : ∀ f ∈ out, names.contains f.name = true) :
    (((fields.foldl finalStep (names, out)).2).map CandField.name).Nodup ∧
    ((fields.foldl finalStep (names, out)).2).length ≤ out.length + fields.length := by
  induction fields generalizing names out with
  | nil =>
    simpa using h1
  | cons f rest ih =>
    rw [List.foldl_cons]
    by_cases hc : names.contains f.name = true
    · rw [show finalStep (names, out) f = (names, out) from by
        unfold finalStep
        dsimp only
        rw [if_pos hc]]
      have hr := ih names out h1 h2
      simp only [List.length_cons]
      exact ⟨hr.1, by omega⟩
    · rw [show finalStep (names, out) f = (f.name :: names, out ++ [f]) from by
        unfold finalStep
        dsimp only
        rw [if_neg hc]]
      have hnew1 : ((out ++ [f]).map CandField.name).Nodup := by
        rw [List.map_append]
        refine List.Nodup.append h1 (by simp) ?_
        intro a ha hb
        simp only [List.map_cons, List.map_nil, List.mem_singleton] at hb
        subst hb
        rw [List.mem_map] at ha
        obtain ⟨g, hg, hgname⟩ := ha
        have hgn := h2 g hg
        rw [hgname] at hgn
        exact hc hgn
      have hnew2 : ∀ g ∈ out ++ [f], (f.name :: names).contains g.name = true := by
        intro g hg
        rcases List.mem_append.mp hg with hcase | hcase
        · have := h2 g hcase
          simp only [List.contains_cons, Bool.or_eq_true]
          right
          exact this
        · simp only [List.mem_singleton] at hcase
          subst hcase
          simp
      have hr := ih (f.name :: names) (out ++ [f]) hnew1 hnew2
      simp only [List.length_append, List.length_cons, List.length_nil] at hr ⊢
      exact ⟨hr.1, by omega⟩

/-- Claim C2.  For every input sequence of candidate fields, the
deduplication step returns a sequence with pairwise-unique names, and
the output length is at most the input length. -/
theorem dedupe_nodup_names_and_length_le (l : List CandField) :
    ((dedupe l).map CandField.name).Nodup ∧ (dedupe l).length ≤ l.length := by
  have hfin := foldl_finalStep_invariant (dedupPass l) [] []
    (by simp) (by intro f hf; cases hf)
  have hlen1 : (dedupPass l).length ≤ l.length := by
    have := foldl_dedupStep_length l ([], [])
    simpa using this
  refine ⟨hfin.1, ?_⟩
  have := hfin.2
  simp only [List.length_nil, Nat.zero_add] at this
  exact Nat.le_trans this hlen1

/-! ### Claim C7: merging duplicates keeps both descriptions -/

theorem dedupStep_nil_accepts (f : CandField) :
    dedupStep ([], []) f = ([(baseName f.name, f.ftype), (f.name, f.ftype)], [f]) := rfl

theorem dedupStep_merge (seen : List (String × String)) (u : List CandField)
    (f1 f2 : CandField)
    (hseen : seen.contains (f2.name, f2.ftype) = true)
    (hfind : u.find? (fun f => f.name == f2.name || firstSeg f.name == baseName f2.name)
      = some f1)
    (h2 : f2.description ≠ "") (hd : f2.description ≠ f1.description) :
    dedupStep (seen, u) f2 =
      (seen,
       updateFirst (fun f => f.name == f2.name || firstSeg f.name == baseName f2.name)
         (fun f => { f with description := f.description ++ " | " ++ f2.description }) u) := by
  unfold dedupStep
  dsimp only
  rw [hseen]
  rw [if_neg (by simp)]
  rw [hfind]
  dsimp only
  rw [if_pos ⟨h2, hd⟩]

/-- Claim C7.  Two candidate fields sharing an identity key (equal
normalized name and equal type) with distinct non-empty descriptions are
merged into a single field whose description is the two originals joined
by the bar separator — hence contains both as substrings — and no new
field is created for the duplicate. -/
theorem dedupe_merges_shared_key (f1 f2 : CandField)
    (hn : f1.name = f2.name) (ht : f1.ftype = f2.ftype)
    (h1 : f1.description ≠ "") (h2 : f2.description ≠ "")
    (hd : f1.description ≠ f2.description) :
    dedupe [f1, f2] =
      [{ f1 with description := f1.description ++ " | " ++ f2.description }] ∧
    f1.description.data <:+: (f1.description ++ " | " ++ f2.description).data ∧
    f2.description.data <:+: (f1.description ++ " | " ++ f2.description).data := by
  refine ⟨?_, ?_, ?_⟩
  · obtain ⟨n1, t1, lb1, r1, d1⟩ := f1
    obtain ⟨n2, t2, lb2, r2, d2⟩ := f2
    dsimp only at hn ht h1 h2 hd ⊢
    subst hn
    subst ht
    unfold dedupe dedupPass
    rw [List.foldl_cons, dedupStep_nil_accepts, List.foldl_cons, List.foldl_nil]
    dsimp only
    rw [dedupStep_merge _ _ (CandField.mk n1 t1 lb1 r1 d1) (CandField.mk n1 t1 lb2 r2 d2)
          (by simp) (by rw [List.find?_cons_of_pos _ (by simp)]) h2
          (fun he => hd he.symm)]
    dsimp only
    unfold updateFirst
    rw [if_pos (by simp)]
    rfl
  · exact ⟨[], (" | " ++ f2.description).data, by simp⟩
  · exact ⟨(f1.description ++ " | ").data, [], by simp⟩

/-- Witness for C7: the merge evaluated at two concrete fields sharing
an identity key. -/
theorem dedupe_merges_shared_key_witness :
    dedupe [CandField.mk "ho_ten" "text" "A" true "given name",
            CandField.mk "ho_ten" "text" "B" true "family name"] =
      [CandField.mk "ho_ten" "text" "A" true "given name | family name"] ∧
    "given name".data <:+: ("given name" ++ " | " ++ "family name").data ∧
    "family name".data <:+: ("given name" ++ " | " ++ "family name").data :=
  dedupe_merges_shared_key
    (CandField.mk "ho_ten" "text" "A" true "given name")
    (CandField.mk "ho_ten" "text" "B" true "family name")
    rfl rfl (by decide) (by decide) (by decide)

/-! ### Claims C4 and C8: the completion-client retry ladder -/

theorem runAttempts_all_fail (f : Nat → Option String) (m : Nat)
    (h : ∀ i, okResult (f i) = false) (idxs : List Nat) :
    runAttempts f m idxs =
      (none, idxs,
       (idxs.filter (fun i => decide (i < m))).map (fun i => min (2 ^ i) 8)) := by
  induction idxs with
  | nil => rfl
  | cons i rest ih =>
    unfold runAttempts
    rw [if_neg (by simp [h i])]
    dsimp only
    rw [ih]
    by_cases him : i < m
    · simp [List.filter_cons, him]
    · simp [List.filter_cons, him]

theorem retryPhase_all_fail (f : Nat → Option String) (m : Nat)
    (h : ∀ i, okResult (f i) = false) :
    retryPhase f m =
      (none, List.range (m + 1), (List.range m).map (fun i => min (2 ^ i) 8)) := by
  unfold retryPhase
  rw [runAttempts_all_fail f m h]
  have hf : (List.range (m + 1)).filter (fun i => decide (i < m)) = List.range m := by
    rw [List.range_succ, List.filter_append]
    rw [List.filter_eq_self.mpr (by intro a ha; simpa using List.mem_range.mp ha)]
    simp [List.filter_cons]
  rw [hf]

/-- Claim C4.  The completion client is a total function of the transport
outcomes (it never raises), and when every attempt against both the
primary and the fallback model fails it returns the fixed,
language-neutral apology string. -/
theorem sealion_call_total_failure_apology (model : String) (maxRetries : Nat)
    (fallbackEnv : String) (models : List String) (primary fb : Nat → Option String)
    (hp : ∀ i, okResult (primary i) = false)
    (hf : ∀ i, okResult (fb i) = false) :
    sealion_call model maxRetries fallbackEnv models primary fb = apologyText := by
  unfold sealion_call
  rw [show (retryPhase primary maxRetries).1 = none from by
        rw [retryPhase_all_fail primary maxRetries hp],
      show (retryPhase fb maxRetries).1 = none from by
        rw [retryPhase_all_fail fb maxRetries hf]]
  dsimp only
  split
  · rename_i s heq
    rw [ite_self] at heq
    cases heq
  · rfl

/-- Witness for C4: total failure with the default configuration. -/
theorem sealion_call_total_failure_apology_witness :
    sealion_call "aisingapore/Llama-SEA-LION-v3-70B-IT" 3 "" []
      (fun _ => none) (fun _ => none) = apologyText :=
  sealion_call_total_failure_apology "aisingapore/Llama-SEA-LION-v3-70B-IT" 3 "" []
    (fun _ => none) (fun _ => none) (fun _ => rfl) (fun _ => rfl)

/-- Counterexample for C8.  With the default configuration
(SEA_LION_RETRIES = 3) and every outcome failing, the primary loop makes
4 attempts, not 3, and the sleeps between consecutive attempts are 1, 2
and 4 seconds (min(2 to the attempt, 8) starting at 1s, not at 2s). -/
theorem retryPhase_default_counterexample :
    (retryPhase (fun _ => none) 3).2.1.length = 4 ∧
    (retryPhase (fun _ => none) 3).2.1.length ≠ 3 ∧
    (retryPhase (fun _ => none) 3).2.2 = [1, 2, 4] := by
  refine ⟨rfl, by decide, rfl⟩

/-- Claim C8 amended.  For every prompt the client attempts the primary
model up to N+1 times, where N (the retry count) is configurable with
default 3, sleeping min(2 to the i, 8) seconds after the i-th failed
non-final attempt — 1s, 2s, 4s, 8s, 8s, ... capped at 8 seconds — before
switching to the fallback model. -/
theorem retryPhase_attempt_count_and_backoff (maxRetries : Nat)
    (f : Nat → Option String) (h : ∀ i, okResult (f i) = false) :
    (retryPhase f maxRetries).2.1 = List.range (maxRetries + 1) ∧
    (retryPhase f maxRetries).2.1.length = maxRetries + 1 ∧
    (retryPhase f maxRetries).2.2 =
      (List.range maxRetries).map (fun i => min (2 ^ i) 8) ∧
    (retryPhase f maxRetries).1 = none := by
  rw [retryPhase_all_fail f maxRetries h]
  exact ⟨rfl, by simp, rfl, rfl⟩

/-- Witness for the amended C8 at a concrete retry count. -/
theorem retryPhase_attempt_count_and_backoff_witness :
    (retryPhase (fun _ => none) 2).2.1 = List.range 3 ∧
    (retryPhase (fun _ => none) 2).2.1.length = 3 ∧
    (retryPhase (fun _ => none) 2).2.2 = (List.range 2).map (fun i => min (2 ^ i) 8) ∧
    (retryPhase (fun _ => none) 2).1 = none :=
  retryPhase_attempt_count_and_backoff 2 (fun _ => none) (fun _ => rfl)

/-! ### Claim C5: fill_form raises exactly on validation failure -/

theorem fill_form_ok_of_valid (schemaFields : List Json) (chat : List ChatMsg)
    (r : Option String) (hne : schemaFields ≠ []) (hlen : chat.length ≤ 50) :
    ∃ v, fill_form schemaFields chat r = .ok v := by
  unfold fill_form
  rw [if_neg (by simpa using hne), if_neg (by omega)]
  cases r with
  | none => exact ⟨_, rfl⟩
  | some s =>
    dsimp only
    cases h : try_parse_json s with
    | none => exact ⟨askUserFallback schemaFields, rfl⟩
    | some v => exact ⟨v, rfl⟩

/-- Claim C5.  fill_form fails if and only if the field set is empty
(InvalidSchema) or the raw chat history exceeds 50 messages
(ConversationTooLong); in every other case — including an unreachable
completion service (oracle none) or an unparseable reply — it returns a
result, and in those two failure cases the result maps every schema
field to the sentinel ASK_USER. -/
theorem fill_form_validation_and_fallback (schemaFields : List Json)
    (chat : List ChatMsg) (r : Option String) :
    ((∃ e, fill_form schemaFields chat r = .error e) ↔
      (schemaFields = [] ∨ chat.length > 50)) ∧
    (fill_form schemaFields chat r = .error .invalidSchema ↔ schemaFields = []) ∧
    (schemaFields ≠ [] → chat.length ≤ 50 →
      fill_form schemaFields chat none = .ok (askUserFallback schemaFields)) ∧
    (∀ s, schemaFields ≠ [] → chat.length ≤ 50 → try_parse_json s = none →
      fill_form schemaFields chat (some s) = .ok (askUserFallback schemaFields)) ∧
    (∃ xs, (askUserFallback schemaFields).lookup "fields" = some (Json.arr xs) ∧
      xs.length = schemaFields.length ∧
      ∀ x ∈ xs, x.lookup "value" = some (Json.str "ASK_USER")) := by
  refine ⟨?_, ?_, ?_, ?_, ?_⟩
  · constructor
    · intro ⟨e, he⟩
      by_cases hne : schemaFields = []
      · exact Or.inl hne
      · by_cases hlen : chat.length > 50
        · exact Or.inr hlen
        · obtain ⟨v, hv⟩ := fill_form_ok_of_valid schemaFields chat r hne (by omega)
          rw [hv] at he
          cases he
    · intro hor
      unfold fill_form
      by_cases hne : schemaFields = []
      · rw [if_pos (by simpa using hne)]
        exact ⟨.invalidSchema, rfl⟩
      · have hlen : chat.length > 50 := hor.resolve_left hne
        rw [if_neg (by simpa using hne), if_pos hlen]
        exact ⟨.conversationTooLong, rfl⟩
  · constructor
    · intro he
      by_cases hne : schemaFields = []
      · exact hne
      · exfalso
        by_cases hlen : chat.length > 50
        · unfold fill_form at he
          rw [if_neg (by simpa using hne), if_pos hlen] at he
          cases he
        · obtain ⟨v, hv⟩ := fill_form_ok_of_valid schemaFields chat r hne (by omega)
          rw [hv] at he
          cases he
    · intro hne
      unfold fill_form
      rw [if_pos (by simpa using hne)]
  · intro hne hlen
    unfold fill_form
    rw [if_neg (by simpa using hne), if_neg (by omega)]
  · intro s hne hlen hparse
    unfold fill_form
    rw [if_neg (by simpa using hne), if_neg (by omega)]
    dsimp only
    rw [hparse]
  · refine ⟨_, rfl, by simp, ?_⟩
    intro x hx
    rw [List.mem_map] at hx
    obtain ⟨f, _, rfl⟩ := hx
    rfl

/-- Witness for C5: the ASK_USER fallback at a concrete one-field schema
with an unreachable completion service, and the InvalidSchema failure on
the empty schema. -/
theorem fill_form_validation_and_fallback_witness :
    fill_form [Json.obj [("name", Json.str "full_name")]] [] none =
      .ok (askUserFallback [Json.obj [("name", Json.str "full_name")]]) ∧
    fill_form [] [] none = .error .invalidSchema :=
  ⟨(fill_form_validation_and_fallback [Json.obj [("name", Json.str "full_name")]] [] none).2.2.1
     (by simp) (by decide),
   (fill_form_validation_and_fallback [] [] none).2.1.mpr rfl⟩

/-! ### Claim C9: extraction never fails and never returns an empty set -/

theorem fieldsBranch_some_ne_nil (parsed : Json) (nf : List Json)
    (h : fieldsBranch parsed = some nf) : nf ≠ [] := by
  unfold fieldsBranch at h
  split at h
  · split at h
    · split at h
      · cases h
      · dsimp only at h
        split at h
        · cases h
        · rename_i hful
          injection h with h2
          subst h2
          simpa using hful
    · cases h
  · cases h

theorem formFieldsBranch_some_ne_nil (parsed : Json) (nf : List Json)
    (h : formFieldsBranch parsed = .ok (some nf)) : nf ≠ [] := by
  unfold formFieldsBranch at h
  split at h
  · split at h
    · split at h
      · injection h with h2
        cases h2
      · split at h
        · cases h
        · split at h
          · injection h with h2
            cases h2
          · rename_i hful
            injection h with h2
            injection h2 with h3
            subst h3
            simpa using hful
    · injection h with h2
      cases h2
  · injection h with h2
    cases h2

theorem splitLoop_some_ne_nil (fields : List Json) (nf : List Json)
    (h : splitLoop fields = .ok (some nf)) : nf ≠ [] := by
  induction fields with
  | nil =>
    unfold splitLoop at h
    injection h with h2
    cases h2
  | cons f rest ih =>
    unfold splitLoop at h
    split at h
    · cases h
    · exact ih h
    · dsimp only at h
      split at h
      · rename_i hlen
        injection h with h2
        injection h2 with h3
        subst h3
        intro hn
        rw [← List.length_eq_zero] at hn
        rw [List.length_map, List.enum_length] at hn
        omega
      · exact ih h

theorem extractCore_ok_ne_nil (parsed : Json) (fs : List Json)
    (h : extractCore parsed = .ok fs) : fs ≠ [] := by
  unfold extractCore at h
  split at h
  · rename_i hb
    injection h with h2
    subst h2
    exact fieldsBranch_some_ne_nil _ _ hb
  · split at h
    · cases h
    · rename_i hb
      injection h with h2
      subst h2
      exact formFieldsBranch_some_ne_nil _ _ hb
    · split at h
      · split at h
        · cases h
        · split at h
          · cases h
          · split at h
            · cases h
            · rename_i hsl
              injection h with h2
              subst h2
              exact splitLoop_some_ne_nil _ _ hsl
            · injection h with h2
              subst h2
              simp
        · injection h with h2
          subst h2
          simp
      · injection h with h2
        subst h2
        simp

theorem lookup_eq_none_of_hasKey_false (ms : List (String × Json)) (k : String)
    (h : (Json.obj ms).hasKey k = false) : (Json.obj ms).lookup k = none := by
  unfold Json.hasKey at h
  rw [List.any_eq_false] at h
  unfold Json.lookup
  dsimp only
  rw [List.find?_eq_none.mpr]
  · rfl
  · intro kv hkv
    exact h kv (List.mem_reverse.mp hkv)

theorem fieldsBranch_none_of_no_key (ms : List (String × Json))
    (h : (Json.obj ms).hasKey "fields" = false) : fieldsBranch (Json.obj ms) = none := by
  unfold fieldsBranch
  rw [if_neg (by rw [h]; simp)]

theorem formFieldsBranch_none_of_no_key (ms : List (String × Json))
    (h : (Json.obj ms).hasKey "form_fields" = false) :
    formFieldsBranch (Json.obj ms) = .ok none := by
  unfold formFieldsBranch
  rw [if_neg (by rw [h]; simp)]

theorem extractCore_no_usable (ms : List (String × Json))
    (h1 : (Json.obj ms).hasKey "fields" = false)
    (h2 : (Json.obj ms).hasKey "form_fields" = false) :
    extractCore (Json.obj ms) = .ok [formContentGeneric] := by
  have hl := lookup_eq_none_of_hasKey_false ms "fields" h1
  unfold extractCore
  rw [fieldsBranch_none_of_no_key ms h1, formFieldsBranch_none_of_no_key ms h2]
  dsimp only
  rw [if_pos (show (Json.obj ms).isObj = true from rfl)]
  rw [show (Json.obj ms).getD "fields" (Json.arr []) = Json.arr [] from by
        unfold Json.getD
        rw [hl]]
  rfl

/-- Claim C9.  extract_form_fields never fails and never returns an
empty field set: the result is always non-empty; empty or
whitespace-only input yields the single manual-entry placeholder; an
exception from the chain invocation (oracle none) or an unparseable
reply yields the single error placeholder instead of raising; and a
parsed reply with no usable fields (an object carrying neither a fields
nor a form_fields key) yields the single generic form_content field. -/
theorem extract_form_fields_contract (form_text : String) (r : Option String) :
    extract_form_fields form_text r ≠ [] ∧
    (pyStrip form_text.data = [] → extract_form_fields form_text r = [manualEntryField]) ∧
    (pyStrip form_text.data ≠ [] → extract_form_fields form_text none = [formContentError]) ∧
    (∀ s, pyStrip form_text.data ≠ [] → try_parse_json s = none →
      extract_form_fields form_text (some s) = [formContentError]) ∧
    (∀ s ms, pyStrip form_text.data ≠ [] → try_parse_json s = some (Json.obj ms) →
      (Json.obj ms).hasKey "fields" = false → (Json.obj ms).hasKey "form_fields" = false →
      extract_form_fields form_text (some s) = [formContentGeneric]) := by
  refine ⟨?_, ?_, ?_, ?_, ?_⟩
  · unfold extract_form_fields
    by_cases he : (pyStrip form_text.data).isEmpty = true
    · rw [if_pos he]
      simp
    · rw [if_neg he]
      cases r with
      | none => simp
      | some s =>
        dsimp only
        cases hp : try_parse_json s with
        | none => simp
        | some parsed =>
          dsimp only
          cases hc : extractCore parsed with
          | ok fs =>
            dsimp only
            exact extractCore_ok_ne_nil parsed fs hc
          | error e => simp
  · intro he
    unfold extract_form_fields
    rw [if_pos (by simp [he])]
  · intro hne
    unfold extract_form_fields
    rw [if_neg (by simpa using hne)]
  · intro s hne hp
    unfold extract_form_fields
    rw [if_neg (by simpa using hne)]
    dsimp only
    rw [hp]
  · intro s ms hne hp h1 h2
    unfold extract_form_fields
    rw [if_neg (by simpa using hne)]
    dsimp only
    rw [hp]
    dsimp only
    rw [extractCore_no_usable ms h1 h2]

/-- Witness for C9: the placeholder on empty input and the error
placeholder when the invocation raises. -/
theorem extract_form_fields_contract_witness :
    extract_form_fields "" none = [manualEntryField] ∧
    extract_form_fields "some form text" none = [formContentError] :=
  ⟨(extract_form_fields_contract "" none).2.1 rfl,
   (extract_form_fields_contract "some form text" none).2.2.1 (by decide)⟩

end Govly
